import Mathlib

/-!
Shallow embedding of the sort-merge join operator from
`datafusion/physical-plan/src/joins/sort_merge_join.rs`, together with
theorems checking the natural-language specification against it.

Columnar arrays of key values are modelled as `List (Option α)` (a cell is
`none` when the array slot is null); a collection of key arrays is a
`List (List (Option α))`.  Machine integers (`usize`) are modelled as `Nat`.
-/

set_option maxHeartbeats 1000000

namespace SMJ

/-- Per-key sort options, mirroring `arrow::compute::SortOptions`. -/
structure SortOptions where
  descending : Bool
  nulls_first : Bool
deriving DecidableEq, Repr

/-- Null-equality policy of the join (`datafusion_common::NullEquality`). -/
inductive NullEquality where
  | NullEqualsNothing
  | NullEqualsNull
deriving DecidableEq, Repr

/-- Join type (`datafusion_common::JoinType`), the ten variants handled by
`SortMergeJoinExec`. -/
inductive JoinType where
  | Inner
  | Left
  | Right
  | Full
  | LeftSemi
  | RightSemi
  | LeftAnti
  | RightAnti
  | LeftMark
  | RightMark
deriving DecidableEq, Repr

/-- Side of a join (`datafusion_common::JoinSide`). -/
inductive JoinSide where
  | Left
  | Right
deriving DecidableEq, Repr

/-- Total three-way comparison on a linearly ordered value type; stands for
Rust's `partial_cmp(..).unwrap()` on the (totally ordered) key values. -/
def cmp3 {α : Type*} [LinearOrder α] (a b : α) : Ordering :=
  if a < b then .lt else if a = b then .eq else .gt

theorem cmp3_eq_iff {α : Type*} [LinearOrder α] (a b : α) :
    cmp3 a b = .eq ↔ a = b := by
  rcases lt_trichotomy a b with h | h | h
  · simp [cmp3, h, h.ne]
  · simp [cmp3, h]
  · simp [cmp3, h.ne', not_lt_of_gt h]

theorem cmp3_lt_iff {α : Type*} [LinearOrder α] (a b : α) :
    cmp3 a b = .lt ↔ a < b := by
  rcases lt_trichotomy a b with h | h | h
  · simp [cmp3, h]
  · simp [cmp3, h, lt_irrefl]
  · simp [cmp3, h.ne', not_lt_of_gt h, asymm h]

theorem cmp3_gt_iff {α : Type*} [LinearOrder α] (a b : α) :
    cmp3 a b = .gt ↔ b < a := by
  rcases lt_trichotomy a b with h | h | h
  · simp [cmp3, h, asymm h]
  · simp [cmp3, h, lt_irrefl]
  · simp [cmp3, h.ne', not_lt_of_gt h, h]

/-- Cell access in a key array: `arr.getD i none` is the value of row `i`
(`none` when the slot is null). -/
def cellAt {α : Type*} (arr : List (Option α)) (i : Nat) : Option α :=
  arr.getD i none

/-- One key comparison step of `compare_join_arrays` (the `compare_value!`
macro body): both non-null compares values (reversed when descending); one
null orders by `nulls_first`; both null orders by the null-equality policy. -/
def compare_cell {α : Type*} [LinearOrder α] (l r : Option α)
    (so : SortOptions) (ne : NullEquality) : Ordering :=
  match l, r with
  | some lv, some rv =>
    let res := cmp3 lv rv
    if so.descending then res.swap else res
  | none, some _ => if so.nulls_first then .lt else .gt
  | some _, none => if so.nulls_first then .gt else .lt
  | none, none =>
    match ne with
    | .NullEqualsNothing => .lt
    | .NullEqualsNull => .eq

/-- Loop body of `compare_join_arrays`: walk the zipped key arrays and sort
options, short-circuiting (`break`) on the first non-`Equal` result. -/
def compareKeysGo {α : Type*} [LinearOrder α] (l r : Nat)
    (ne : NullEquality) :
    List ((List (Option α) × List (Option α)) × SortOptions) → Ordering
  | [] => .eq
  | ((la, ra), so) :: rest =>
    let res := compare_cell (cellAt la l) (cellAt ra r) so ne
    if res = .eq then compareKeysGo l r ne rest else res

/-- `compare_join_arrays`: three-way comparison of row `l` of the left key
arrays against row `r` of the right key arrays, per key with its sort
options, under the given null-equality policy. -/
def compare_join_arrays {α : Type*} [LinearOrder α]
    (left_arrays : List (List (Option α))) (l : Nat)
    (right_arrays : List (List (Option α))) (r : Nat)
    (sort_options : List SortOptions) (null_equality : NullEquality) :
    Ordering :=
  compareKeysGo l r null_equality ((left_arrays.zip right_arrays).zip sort_options)

/-- Loop body of `is_join_arrays_equal`: returns `false` on the first key
whose cells differ or have exactly one null; a both-null key is skipped. -/
def isEqualGo {α : Type*} [DecidableEq α] (l r : Nat) :
    List (List (Option α) × List (Option α)) → Bool
  | [] => true
  | (la, ra) :: rest =>
    match cellAt la l, cellAt ra r with
    | some lv, some rv => if lv ≠ rv then false else isEqualGo l r rest
    | none, some _ => false
    | some _, none => false
    | none, none => isEqualGo l r rest

/-- `is_join_arrays_equal`: fast-path equality of row `l` of the left key
arrays and row `r` of the right key arrays; no sort options, no
null-equality policy. -/
def is_join_arrays_equal {α : Type*} [DecidableEq α]
    (left_arrays : List (List (Option α))) (l : Nat)
    (right_arrays : List (List (Option α))) (r : Nat) : Bool :=
  isEqualGo l r (left_arrays.zip right_arrays)

/-- `SortMergeJoinExec::probe_side`: which input is streamed, by join type. -/
def probe_side (join_type : JoinType) : JoinSide :=
  match join_type with
  | .Right | .RightSemi | .RightAnti | .RightMark => .Right
  | .Inner | .Left | .Full | .LeftAnti | .LeftSemi | .LeftMark => .Left

/-- The streamed/buffered input selection performed by
`SortMergeJoinExec::execute`: `(streamed, buffered)` is `(left, right)` when
the probe side is `Left` and `(right, left)` otherwise. -/
def execute_streams {σ : Type*} (join_type : JoinType) (left right : σ) :
    σ × σ :=
  if probe_side join_type = JoinSide.Left then (left, right) else (right, left)

/-- Per-key comparison results of `compare_join_arrays`, used to state its
short-circuit behaviour. -/
def keyComparisons {α : Type*} [LinearOrder α]
    (left_arrays : List (List (Option α))) (l : Nat)
    (right_arrays : List (List (Option α))) (r : Nat)
    (sort_options : List SortOptions) (null_equality : NullEquality) :
    List Ordering :=
  ((left_arrays.zip right_arrays).zip sort_options).map
    (fun p => compare_cell (cellAt p.1.1 l) (cellAt p.1.2 r) p.2 null_equality)

theorem compareKeysGo_eq_find {α : Type*} [LinearOrder α] (l r : Nat)
    (ne : NullEquality)
    (xs : List ((List (Option α) × List (Option α)) × SortOptions)) :
    compareKeysGo l r ne xs =
      ((xs.map (fun p => compare_cell (cellAt p.1.1 l) (cellAt p.1.2 r) p.2 ne)).find?
        (fun o => decide (o ≠ Ordering.eq))).getD Ordering.eq := by
  induction xs with
  | nil => rfl
  | cons hd tl ih =>
    obtain ⟨⟨la, ra⟩, so⟩ := hd
    simp only [compareKeysGo, List.map_cons, List.find?]
    by_cases h : compare_cell (cellAt la l) (cellAt ra r) so ne = Ordering.eq
    · simp [h, ih]
    · simp [h]

theorem isEqualGo_eq_all {α : Type*} [DecidableEq α] (l r : Nat)
    (xs : List (List (Option α) × List (Option α))) :
    isEqualGo l r xs =
      xs.all (fun p =>
        match cellAt p.1 l, cellAt p.2 r with
        | some lv, some rv => decide (lv = rv)
        | none, none => true
        | _, _ => false) := by
  induction xs with
  | nil => rfl
  | cons hd tl ih =>
    obtain ⟨la, ra⟩ := hd
    simp only [isEqualGo, List.all_cons]
    rcases hl : cellAt la l with _ | lv <;> rcases hr : cellAt ra r with _ | rv
    · simpa using ih
    · simp
    · simp
    · by_cases hv : lv = rv
      · simp [hv, ih]
      · simp [hv]

/-- C4: `compare_join_arrays` compares per key and short-circuits on the
first non-`Equal` result (its value is the first non-`Equal` per-key
comparison, or `Equal` when all keys compare `Equal`); a key with exactly
one null side compares `Less` for the null side iff `nulls_first` is set
(and `Greater` otherwise), independent of `descending`; a key with both
sides null compares `Equal` under `NullEqualsNull` and `Less` under
`NullEqualsNothing`. -/
theorem compare_join_arrays_per_key_null_semantics {α : Type*}
    [LinearOrder α] :
    (∀ (left_arrays right_arrays : List (List (Option α))) (l r : Nat)
        (sort_options : List SortOptions) (ne : NullEquality),
      compare_join_arrays left_arrays l right_arrays r sort_options ne =
        ((keyComparisons left_arrays l right_arrays r sort_options ne).find?
          (fun o => decide (o ≠ Ordering.eq))).getD Ordering.eq)
    ∧ (∀ (v : α) (so : SortOptions) (ne : NullEquality),
        compare_cell (α := α) none (some v) so ne =
          (if so.nulls_first then Ordering.lt else Ordering.gt)
        ∧ compare_cell (some v) none so ne =
          (if so.nulls_first then Ordering.gt else Ordering.lt))
    ∧ (∀ so : SortOptions,
        compare_cell (α := α) none none so NullEquality.NullEqualsNull =
          Ordering.eq
        ∧ compare_cell (α := α) none none so NullEquality.NullEqualsNothing =
          Ordering.lt) := by
  refine ⟨fun las ras l r sos ne => ?_, fun v so ne => ⟨rfl, rfl⟩,
    fun so => ⟨rfl, rfl⟩⟩
  simpa [keyComparisons] using
    compareKeysGo_eq_find l r ne ((las.zip ras).zip sos)

/-- C7: `is_join_arrays_equal` ignores sort options and the null-equality
policy (it takes neither), and its result is `true` exactly when every key
position has either two equal non-null values or two nulls; hence it is
`false` as soon as some key pair has differing non-null values or exactly
one null side, and a both-null key position never makes it `false`. -/
theorem is_join_arrays_equal_pointwise {α : Type*} [DecidableEq α] :
    ∀ (left_arrays right_arrays : List (List (Option α))) (l r : Nat),
      is_join_arrays_equal left_arrays l right_arrays r =
        (left_arrays.zip right_arrays).all (fun p =>
          match cellAt p.1 l, cellAt p.2 r with
          | some lv, some rv => decide (lv = rv)
          | none, none => true
          | _, _ => false) := by
  intro las ras l r
  exact isEqualGo_eq_all l r (las.zip ras)

/-- C6: streamed-side selection: `Left`, `Inner`, `Full`, `LeftSemi`,
`LeftAnti`, `LeftMark` stream the left input and buffer the right;
`Right`, `RightSemi`, `RightAnti`, `RightMark` stream the right input and
buffer the left. -/
theorem probe_side_streamed_selection :
    ∀ (L R : Nat),
      (probe_side .Left = .Left ∧ execute_streams .Left L R = (L, R))
      ∧ (probe_side .Inner = .Left ∧ execute_streams .Inner L R = (L, R))
      ∧ (probe_side .Full = .Left ∧ execute_streams .Full L R = (L, R))
      ∧ (probe_side .LeftSemi = .Left ∧ execute_streams .LeftSemi L R = (L, R))
      ∧ (probe_side .LeftAnti = .Left ∧ execute_streams .LeftAnti L R = (L, R))
      ∧ (probe_side .LeftMark = .Left ∧ execute_streams .LeftMark L R = (L, R))
      ∧ (probe_side .Right = .Right ∧ execute_streams .Right L R = (R, L))
      ∧ (probe_side .RightSemi = .Right
          ∧ execute_streams .RightSemi L R = (R, L))
      ∧ (probe_side .RightAnti = .Right
          ∧ execute_streams .RightAnti L R = (R, L))
      ∧ (probe_side .RightMark = .Right
          ∧ execute_streams .RightMark L R = (R, L)) := by
  intro L R
  exact ⟨⟨rfl, rfl⟩, ⟨rfl, rfl⟩, ⟨rfl, rfl⟩, ⟨rfl, rfl⟩, ⟨rfl, rfl⟩,
    ⟨rfl, rfl⟩, ⟨rfl, rfl⟩, ⟨rfl, rfl⟩, ⟨rfl, rfl⟩, ⟨rfl, rfl⟩⟩

/-- Value bit of a nullable boolean array slot (`BooleanArray::value`); a
null slot reads its zeroed buffer bit, i.e. `false`. -/
def maskValue (m : List (Option Bool)) (i : Nat) : Bool :=
  (m.getD i none).getD false

/-- Null bit of a nullable boolean array slot (`BooleanArray::is_null`). -/
def maskIsNull (m : List (Option Bool)) (i : Nat) : Bool :=
  (m.getD i none).isNone

/-- True iff index `row_index` is the last tentative pair of its
`(batch_id, streamed-row-index)` group: end of the arrays, or the next
index has another batch id or another streamed row index. -/
def last_index_for_row (row_index : Nat) (indices : List Nat)
    (batch_ids : List Nat) (indices_len : Nat) : Bool :=
  row_index == indices_len - 1
    || batch_ids.getD row_index 0 != batch_ids.getD (row_index + 1) 0
    || indices.getD row_index 0 != indices.getD (row_index + 1) 0

/-- Loop of the `Left | Right` branch of `get_corrected_filter_mask`: the
`for i in 0..row_indices_length` iteration walks the position list
`List.range n`, with the running `seen_true` flag made explicit. -/
def correctedLRGo (indices batch_ids : List Nat) (mask : List (Option Bool))
    (n : Nat) : List Nat → Bool → List (Option Bool)
  | [], _ => []
  | i :: rest, seen_true =>
    let last := last_index_for_row i indices batch_ids n
    let v := maskValue mask i
    let out : Option Bool :=
      if v then some true
      else if seen_true || (!v && !last) then none
      else some false
    let st := if v then true else seen_true
    out :: correctedLRGo indices batch_ids mask n rest (if last then false else st)

/-- Loop of the `LeftMark` branch of `get_corrected_filter_mask`. -/
def correctedMarkGo (indices batch_ids : List Nat) (mask : List (Option Bool))
    (n : Nat) : List Nat → Bool → List (Option Bool)
  | [], _ => []
  | i :: rest, seen_true =>
    let last := last_index_for_row i indices batch_ids n
    let v := maskValue mask i
    let out : Option Bool :=
      if v && !seen_true then some true
      else if seen_true || (!v && !last) then none
      else some false
    let st := if v && !seen_true then true else seen_true
    out :: correctedMarkGo indices batch_ids mask n rest (if last then false else st)

/-- Loop of the `LeftSemi | RightSemi` branch of
`get_corrected_filter_mask`. -/
def correctedSemiGo (indices batch_ids : List Nat) (mask : List (Option Bool))
    (n : Nat) : List Nat → Bool → List (Option Bool)
  | [], _ => []
  | i :: rest, seen_true =>
    let last := last_index_for_row i indices batch_ids n
    let v := maskValue mask i
    let out : Option Bool :=
      if v && !seen_true then some true else none
    let st := if v && !seen_true then true else seen_true
    out :: correctedSemiGo indices batch_ids mask n rest (if last then false else st)

/-- Loop of the `LeftAnti | RightAnti` branch of
`get_corrected_filter_mask`. -/
def correctedAntiGo (indices batch_ids : List Nat) (mask : List (Option Bool))
    (n : Nat) : List Nat → Bool → List (Option Bool)
  | [], _ => []
  | i :: rest, seen_true =>
    let last := last_index_for_row i indices batch_ids n
    let st := if maskValue mask i then true else seen_true
    let out : Option Bool :=
      if last then (if !st then some true else none) else none
    out :: correctedAntiGo indices batch_ids mask n rest (if last then false else st)

/-- Set positions `j` with `lo ≤ j < hi` of the mask vector to `none`
(the inner `for j in first_row_idx..last_true_idx` loop of the `Full`
branch). -/
def setRangeNone (m : List (Option Bool)) (lo hi : Nat) : List (Option Bool) :=
  m.mapIdx (fun j x => if lo ≤ j ∧ j < hi then none else x)

/-- Loop of the `Full` branch of `get_corrected_filter_mask`, carrying the
mask vector and the `seen_true`/`seen_false`/`last_true_idx`/`first_row_idx`
state. -/
def correctedFullGo (indices batch_ids : List Nat) (fm : List (Option Bool))
    (n : Nat) : List Nat → Bool → Bool → Nat → Nat → List (Option Bool) →
    List (Option Bool)
  | [], _, _, _, _, mask => mask
  | i :: rest, seen_true, seen_false, last_true_idx, first_row_idx, mask =>
    let last := last_index_for_row i indices batch_ids n
    let val := maskValue fm i
    let is_null := maskIsNull fm i
    let last_true_idx := if val && !seen_true then i else last_true_idx
    let seen_true := seen_true || val
    let entry : Option Bool :=
      if is_null || val then some true
      else if !is_null && !val && (seen_true || seen_false) then none
      else some false
    let mask := mask.set i entry
    let seen_false := seen_false || (!is_null && !val)
    if last then
      correctedFullGo indices batch_ids fm n rest false false 0 (i + 1)
        (if seen_true then setRangeNone mask first_row_idx last_true_idx
         else mask)
    else
      correctedFullGo indices batch_ids fm n rest seen_true seen_false
        last_true_idx first_row_idx mask

/-- `get_corrected_filter_mask`: per-join-type correction of the raw
residual-filter mask. Entries of the result: `some true` keeps the joined
row, `some false` emits it null-joined, `none` drops it. Returns `none`
for join types that need no correction (e.g. `Inner`). -/
def get_corrected_filter_mask (join_type : JoinType)
    (row_indices : List Nat) (batch_ids : List Nat)
    (filter_mask : List (Option Bool)) (expected_size : Nat) :
    Option (List (Option Bool)) :=
  let n := row_indices.length
  match join_type with
  | .Left | .Right =>
    some (correctedLRGo row_indices batch_ids filter_mask n (List.range n) false
      ++ List.replicate (expected_size - n) (some false))
  | .LeftMark =>
    some (correctedMarkGo row_indices batch_ids filter_mask n (List.range n)
        false
      ++ List.replicate (expected_size - n) (some false))
  | .LeftSemi | .RightSemi =>
    some (correctedSemiGo row_indices batch_ids filter_mask n (List.range n)
      false)
  | .LeftAnti | .RightAnti =>
    some (correctedAntiGo row_indices batch_ids filter_mask n (List.range n)
        false
      ++ List.replicate (expected_size - n) (some true))
  | .Full =>
    some (correctedFullGo row_indices batch_ids filter_mask n (List.range n)
      false false 0 0 (List.replicate n (some true)))
  | _ => none

/-- The value of the `seen_true` flag on entry to iteration `i` of the
corrected-mask loops: it is set by a `true` mask value and cleared after
the last index of each `(batch_id, row_index)` group. -/
def seenS (indices batch_ids : List Nat) (mask : List (Option Bool))
    (n : Nat) : Nat → Bool
  | 0 => false
  | i + 1 =>
    if last_index_for_row i indices batch_ids n then false
    else maskValue mask i || seenS indices batch_ids mask n i

theorem seenS_eq_true_iff (indices batch_ids : List Nat)
    (mask : List (Option Bool)) (n : Nat) (i : Nat) :
    seenS indices batch_ids mask n i = true ↔
      ∃ j, j < i ∧ maskValue mask j = true ∧
        ∀ k, j ≤ k → k < i →
          last_index_for_row k indices batch_ids n = false := by
  induction i with
  | zero => simp [seenS]
  | succ i ih =>
    cases hb : last_index_for_row i indices batch_ids n with
    | true =>
      have hL : seenS indices batch_ids mask n (i + 1) = false := by
        simp [seenS, hb]
      rw [hL]
      constructor
      · intro h; cases h
      · rintro ⟨j, hj, _, hall⟩
        have hcontra := hall i (by omega) (by omega)
        rw [hb] at hcontra; cases hcontra
    | false =>
      have hb' : last_index_for_row i indices batch_ids n = false := hb
      have hL : seenS indices batch_ids mask n (i + 1) =
          (maskValue mask i || seenS indices batch_ids mask n i) := by
        simp [seenS, hb]
      rw [hL, Bool.or_eq_true]
      constructor
      · rintro (hv | hs)
        · exact ⟨i, by omega, hv, fun k hk1 hk2 => by
            have : k = i := by omega
            subst this; exact hb'⟩
        · obtain ⟨j, hj, hv, hall⟩ := ih.mp hs
          refine ⟨j, by omega, hv, fun k hk1 hk2 => ?_⟩
          by_cases hk : k < i
          · exact hall k hk1 hk
          · have : k = i := by omega
            subst this; exact hb'
      · rintro ⟨j, hj, hv, hall⟩
        by_cases hji : j = i
        · subst hji; exact Or.inl hv
        · refine Or.inr (ih.mpr ⟨j, by omega, hv, fun k hk1 hk2 => ?_⟩)
          exact hall k hk1 (by omega)

theorem correctedLRGo_length (indices batch_ids : List Nat)
    (mask : List (Option Bool)) (n : Nat) (l : List Nat) (s : Bool) :
    (correctedLRGo indices batch_ids mask n l s).length = l.length := by
  induction l generalizing s with
  | nil => rfl
  | cons i rest ih => simp [correctedLRGo, ih]

theorem correctedAntiGo_length (indices batch_ids : List Nat)
    (mask : List (Option Bool)) (n : Nat) (l : List Nat) (s : Bool) :
    (correctedAntiGo indices batch_ids mask n l s).length = l.length := by
  induction l generalizing s with
  | nil => rfl
  | cons i rest ih => simp [correctedAntiGo, ih]

theorem correctedLRGo_getElem (indices batch_ids : List Nat)
    (mask : List (Option Bool)) (n : Nat) :
    ∀ (k i j : Nat),
      (correctedLRGo indices batch_ids mask n (List.range' i k)
        (seenS indices batch_ids mask n i))[j]? =
      if j < k then
        some (if maskValue mask (i + j) then some true
          else if seenS indices batch_ids mask n (i + j)
              || (!(maskValue mask (i + j))
                  && !(last_index_for_row (i + j) indices batch_ids n)) then
            none
          else some false)
      else none := by
  intro k
  induction k with
  | zero => intro i j; simp [List.range', correctedLRGo]
  | succ k ih =>
    intro i j
    rw [List.range'_succ]
    simp only [correctedLRGo]
    have hstate :
        (if last_index_for_row i indices batch_ids n then false
         else if maskValue mask i then true
              else seenS indices batch_ids mask n i) =
        seenS indices batch_ids mask n (i + 1) := by
      show _ = seenS indices batch_ids mask n (i + 1)
      simp only [seenS]
      cases maskValue mask i <;>
        cases last_index_for_row i indices batch_ids n <;> simp
    cases j with
    | zero =>
      simp
    | succ j =>
      simp only [List.getElem?_cons_succ]
      rw [hstate, ih (i + 1) j]
      have : i + 1 + j = i + (j + 1) := by omega
      rw [this]
      by_cases hj : j < k
      · rw [if_pos hj, if_pos (Nat.succ_lt_succ hj)]
      · rw [if_neg hj, if_neg (fun h => hj (Nat.lt_of_succ_lt_succ h))]

theorem correctedAntiGo_getElem (indices batch_ids : List Nat)
    (mask : List (Option Bool)) (n : Nat) :
    ∀ (k i j : Nat),
      (correctedAntiGo indices batch_ids mask n (List.range' i k)
        (seenS indices batch_ids mask n i))[j]? =
      if j < k then
        some (if last_index_for_row (i + j) indices batch_ids n then
            (if !(maskValue mask (i + j)
                || seenS indices batch_ids mask n (i + j)) then some true
             else none)
          else none)
      else none := by
  intro k
  induction k with
  | zero => intro i j; simp [List.range', correctedAntiGo]
  | succ k ih =>
    intro i j
    rw [List.range'_succ]
    simp only [correctedAntiGo]
    have hstate :
        (if last_index_for_row i indices batch_ids n then false
         else if maskValue mask i then true
              else seenS indices batch_ids mask n i) =
        seenS indices batch_ids mask n (i + 1) := by
      simp only [seenS]
      cases maskValue mask i <;>
        cases last_index_for_row i indices batch_ids n <;> simp
    have hst :
        (if maskValue mask i then true
         else seenS indices batch_ids mask n i) =
        (maskValue mask i || seenS indices batch_ids mask n i) := by
      cases maskValue mask i <;> simp
    cases j with
    | zero =>
      simp only [List.getElem?_cons_zero, if_pos (Nat.succ_pos k), Nat.add_zero,
        hst]
    | succ j =>
      simp only [List.getElem?_cons_succ]
      rw [hstate, ih (i + 1) j]
      have : i + 1 + j = i + (j + 1) := by omega
      rw [this]
      by_cases hj : j < k
      · rw [if_pos hj, if_pos (Nat.succ_lt_succ hj)]
      · rw [if_neg hj, if_neg (fun h => hj (Nat.lt_of_succ_lt_succ h))]

theorem seenS_incl_iff (indices batch_ids : List Nat)
    (mask : List (Option Bool)) (n : Nat) (i : Nat) :
    (maskValue mask i || seenS indices batch_ids mask n i) = true ↔
      ∃ j, j ≤ i ∧ maskValue mask j = true ∧
        ∀ k, j ≤ k → k < i →
          last_index_for_row k indices batch_ids n = false := by
  rw [Bool.or_eq_true, seenS_eq_true_iff]
  constructor
  · rintro (hv | ⟨j, hj, hv, hall⟩)
    · exact ⟨i, le_refl i, hv, fun k hk1 hk2 => absurd hk2 (by omega)⟩
    · exact ⟨j, by omega, hv, hall⟩
  · rintro ⟨j, hj, hv, hall⟩
    by_cases hji : j = i
    · subst hji; exact Or.inl hv
    · exact Or.inr ⟨j, by omega, hv, hall⟩

/-- C2, counterexample to the claim as stated: in a single group with raw
mask `[true, true]`, the second pair is a "subsequent pair after a true",
which the claim maps to null; `get_corrected_filter_mask` for a `Left`
join keeps it `true`. -/
theorem corrected_mask_left_right_counterexample :
    get_corrected_filter_mask JoinType.Left [0, 0] [0, 0]
        [some true, some true] 2 = some [some true, some true]
    ∧ (some [some true, some true] : Option (List (Option Bool))) ≠
        some [some true, none] := by
  exact ⟨by decide, by decide⟩

/-- C2 (amended): for `Left` and `Right` joins, `get_corrected_filter_mask`
maps, within each `(batch_id, streamed_row_index)` group of the raw mask:
every true to true; a false with a prior true in its group to null; a false
that is not the last of its group to null; a false that is the last of its
group with no prior true to false; and after the per-row pass pads the
result with false up to the expected size.  In particular, for one group
with raw mask `[false, false, true]` the corrected mask is
`[null, null, true]`. -/
theorem corrected_mask_left_right_amended
    (jt : JoinType) (hjt : jt = JoinType.Left ∨ jt = JoinType.Right)
    (indices batch_ids : List Nat) (mask : List (Option Bool))
    (expected_size : Nat) (out : List (Option Bool))
    (hout : get_corrected_filter_mask jt indices batch_ids mask
        expected_size = some out)
    (hexp : indices.length ≤ expected_size) :
    out.length = expected_size
    ∧ (∀ i, i < indices.length →
        (maskValue mask i = true → out[i]? = some (some true))
        ∧ (maskValue mask i = false →
            ((∃ j, j < i ∧ maskValue mask j = true ∧ ∀ k, j ≤ k → k < i →
                last_index_for_row k indices batch_ids indices.length = false)
              ∨ last_index_for_row i indices batch_ids indices.length =
                  false) →
            out[i]? = some none)
        ∧ (maskValue mask i = false →
            last_index_for_row i indices batch_ids indices.length = true →
            (¬ ∃ j, j < i ∧ maskValue mask j = true ∧ ∀ k, j ≤ k → k < i →
                last_index_for_row k indices batch_ids indices.length =
                  false) →
            out[i]? = some (some false)))
    ∧ (∀ i, indices.length ≤ i → i < expected_size →
        out[i]? = some (some false))
    ∧ get_corrected_filter_mask JoinType.Left [0, 0, 0] [0, 0, 0]
        [some false, some false, some true] 3 =
        some [none, none, some true] := by
  set n := indices.length with hn
  have hbranch : out =
      correctedLRGo indices batch_ids mask n (List.range n) false
        ++ List.replicate (expected_size - n) (some false) := by
    rcases hjt with h | h <;> subst h <;>
      (simp only [get_corrected_filter_mask] at hout;
       exact (Option.some.inj hout).symm)
  have hrange : correctedLRGo indices batch_ids mask n (List.range n) false =
      correctedLRGo indices batch_ids mask n (List.range' 0 n)
        (seenS indices batch_ids mask n 0) := by
    rw [List.range_eq_range']
    rfl
  have hLlen :
      (correctedLRGo indices batch_ids mask n (List.range n) false).length =
        n := by
    rw [correctedLRGo_length, List.length_range]
  have hget : ∀ i, i < n →
      out[i]? = some (if maskValue mask i then some true
        else if seenS indices batch_ids mask n i
            || (!(maskValue mask i)
                && !(last_index_for_row i indices batch_ids n)) then none
        else some false) := by
    intro i hi
    rw [hbranch, List.getElem?_append_left (by rw [hLlen]; exact hi), hrange,
      correctedLRGo_getElem, if_pos (by simpa using hi)]
    simp
  refine ⟨?_, ?_, ?_, by decide⟩
  · rw [hbranch]
    simp only [List.length_append, hLlen, List.length_replicate]
    omega
  · intro i hi
    refine ⟨?_, ?_, ?_⟩
    · intro hv
      rw [hget i hi, hv]
      simp
    · intro hv hcase
      rw [hget i hi, hv]
      rcases hcase with hprior | hlast
      · have hs : seenS indices batch_ids mask n i = true :=
          (seenS_eq_true_iff indices batch_ids mask n i).mpr hprior
        simp [hs]
      · simp [hlast]
    · intro hv hlast hnoprior
      have hs : seenS indices batch_ids mask n i = false := by
        cases h : seenS indices batch_ids mask n i
        · rfl
        · exact absurd ((seenS_eq_true_iff indices batch_ids mask n i).mp h)
            hnoprior
      rw [hget i hi, hv, hs, hlast]
      simp
  · intro i hni hie
    rw [hbranch, List.getElem?_append_right (by rw [hLlen]; exact hni), hLlen]
    exact List.getElem?_replicate_of_lt (by omega)

theorem corrected_mask_left_right_amended_witness :
    ([none, none, some true] : List (Option Bool)).length = 3
    ∧ ([none, none, some true] : List (Option Bool))[0]? = some none
    ∧ ([none, none, some true] : List (Option Bool))[2]? = some (some true) := by
  have h := corrected_mask_left_right_amended JoinType.Left (Or.inl rfl)
    [0, 0, 0] [0, 0, 0] [some false, some false, some true] 3
    [none, none, some true] (by decide) (by decide)
  exact ⟨h.1, (h.2.1 0 (by decide)).2.1 (by decide) (Or.inr (by decide)),
    (h.2.1 2 (by decide)).1 (by decide)⟩

/-- C3: for `LeftAnti` and `RightAnti` joins, `get_corrected_filter_mask`
maps, within each `(batch_id, streamed_row_index)` group of the raw mask:
the last position of the group to null if any true was seen in the group
and to true otherwise; every non-last position to null; and pads the
result with true up to the expected size. -/
theorem corrected_mask_anti_spec
    (jt : JoinType) (hjt : jt = JoinType.LeftAnti ∨ jt = JoinType.RightAnti)
    (indices batch_ids : List Nat) (mask : List (Option Bool))
    (expected_size : Nat) (out : List (Option Bool))
    (hout : get_corrected_filter_mask jt indices batch_ids mask
        expected_size = some out)
    (hexp : indices.length ≤ expected_size) :
    out.length = expected_size
    ∧ (∀ i, i < indices.length →
        (last_index_for_row i indices batch_ids indices.length = false →
          out[i]? = some none)
        ∧ (last_index_for_row i indices batch_ids indices.length = true →
            (∃ j, j ≤ i ∧ maskValue mask j = true ∧ ∀ k, j ≤ k → k < i →
                last_index_for_row k indices batch_ids indices.length =
                  false) →
            out[i]? = some none)
        ∧ (last_index_for_row i indices batch_ids indices.length = true →
            (¬ ∃ j, j ≤ i ∧ maskValue mask j = true ∧ ∀ k, j ≤ k → k < i →
                last_index_for_row k indices batch_ids indices.length =
                  false) →
            out[i]? = some (some true)))
    ∧ (∀ i, indices.length ≤ i → i < expected_size →
        out[i]? = some (some true)) := by
  set n := indices.length with hn
  have hbranch : out =
      correctedAntiGo indices batch_ids mask n (List.range n) false
        ++ List.replicate (expected_size - n) (some true) := by
    rcases hjt with h | h <;> subst h <;>
      (simp only [get_corrected_filter_mask] at hout;
       exact (Option.some.inj hout).symm)
  have hrange :
      correctedAntiGo indices batch_ids mask n (List.range n) false =
      correctedAntiGo indices batch_ids mask n (List.range' 0 n)
        (seenS indices batch_ids mask n 0) := by
    rw [List.range_eq_range']
    rfl
  have hLlen :
      (correctedAntiGo indices batch_ids mask n (List.range n) false).length =
        n := by
    rw [correctedAntiGo_length, List.length_range]
  have hget : ∀ i, i < n →
      out[i]? = some (if last_index_for_row i indices batch_ids n then
        (if !(maskValue mask i || seenS indices batch_ids mask n i) then
          some true
         else none)
        else none) := by
    intro i hi
    rw [hbranch, List.getElem?_append_left (by rw [hLlen]; exact hi), hrange,
      correctedAntiGo_getElem, if_pos (by simpa using hi)]
    simp
  refine ⟨?_, ?_, ?_⟩
  · rw [hbranch]
    simp only [List.length_append, hLlen, List.length_replicate]
    omega
  · intro i hi
    refine ⟨?_, ?_, ?_⟩
    · intro hlast
      rw [hget i hi, hlast]
      simp
    · intro hlast hex
      have hincl : (maskValue mask i || seenS indices batch_ids mask n i) =
          true := (seenS_incl_iff indices batch_ids mask n i).mpr hex
      rw [hget i hi, hlast, hincl]
      simp
    · intro hlast hnoex
      have hincl : (maskValue mask i || seenS indices batch_ids mask n i) =
          false := by
        cases h : (maskValue mask i || seenS indices batch_ids mask n i)
        · rfl
        · exact absurd ((seenS_incl_iff indices batch_ids mask n i).mp h)
            hnoex
      rw [hget i hi, hlast, hincl]
      simp
  · intro i hni hie
    rw [hbranch, List.getElem?_append_right (by rw [hLlen]; exact hni), hLlen]
    exact List.getElem?_replicate_of_lt (by omega)

theorem corrected_mask_anti_spec_witness :
    ([none, some true, none, none, some true, some true] :
        List (Option Bool)).length = 6
    ∧ ([none, some true, none, none, some true, some true] :
        List (Option Bool))[0]? = some none
    ∧ ([none, some true, none, none, some true, some true] :
        List (Option Bool))[3]? = some none
    ∧ ([none, some true, none, none, some true, some true] :
        List (Option Bool))[5]? = some (some true) := by
  have h := corrected_mask_anti_spec JoinType.LeftAnti (Or.inl rfl)
    [0, 0, 1, 1] [0, 0, 0, 0]
    [some false, some false, some false, some true] 6
    [none, some true, none, none, some true, some true] (by decide) (by decide)
  refine ⟨h.1, (h.2.1 0 (by decide)).1 (by decide),
    (h.2.1 3 (by decide)).2.1 (by decide)
      ⟨3, le_refl 3, by decide, fun k hk1 hk2 => absurd hk2 (by omega)⟩,
    h.2.2 5 (by decide) (by decide)⟩

/-- One chunk of joined output indices (`StreamedJoinedChunk`): the target
buffered batch (`None` for null-joined / mark rows) and the parallel index
builders. -/
structure StreamedJoinedChunk where
  buffered_batch_idx : Option Nat
  streamed_indices : List Nat
  buffered_indices : List (Option Nat)
deriving DecidableEq, Repr

/-- The parts of `StreamedBatch` involved in `append_output_pair`: the
current row cursor `idx`, the accumulated chunks, and the most recent
target buffered batch index. -/
structure StreamedBatch where
  idx : Nat
  output_indices : List StreamedJoinedChunk
  buffered_batch_idx : Option Nat
deriving DecidableEq, Repr

/-- A freshly created `StreamedBatch` (`StreamedBatch::new`): cursor 0, no
chunks, no current buffered batch index. -/
def StreamedBatch.new : StreamedBatch :=
  { idx := 0, output_indices := [], buffered_batch_idx := none }

/-- Apply `f` to the last element of a list (`last_mut`). -/
def modifyLast {χ : Type*} (f : χ → χ) : List χ → List χ
  | [] => []
  | [c] => [f c]
  | c :: c' :: rest => c :: modifyLast f (c' :: rest)

/-- `StreamedBatch::append_output_pair`: open a new chunk when there is no
chunk yet or the target buffered batch index changed, then push the current
streamed row index and the buffered row index into the last chunk. -/
def append_output_pair (sb : StreamedBatch) (buffered_batch_idx : Option Nat)
    (buffered_idx : Option Nat) : StreamedBatch :=
  let sb :=
    if sb.output_indices.isEmpty || sb.buffered_batch_idx ≠ buffered_batch_idx
    then
      { sb with
        output_indices := sb.output_indices
          ++ [{ buffered_batch_idx := buffered_batch_idx,
                streamed_indices := [], buffered_indices := [] }],
        buffered_batch_idx := buffered_batch_idx }
    else sb
  { sb with
    output_indices := modifyLast
      (fun c =>
        { c with
          streamed_indices := c.streamed_indices ++ [sb.idx],
          buffered_indices := c.buffered_indices ++ [buffered_idx] })
      sb.output_indices }

/-- Fold `append_output_pair` over a sequence of
`(buffered_batch_idx, buffered_idx)` pairs. -/
def append_output_pairs (sb : StreamedBatch)
    (ps : List (Option Nat × Option Nat)) : StreamedBatch :=
  ps.foldl (fun s p => append_output_pair s p.1 p.2) sb

/-- Collapse consecutive duplicates (keeping one representative per
maximal run); the chunk structure of `output_indices` is grouped by
buffered batch index exactly when its index list is this collapse of the
appended targets. -/
def dedupConsec : List (Option Nat) → List (Option Nat)
  | [] => []
  | [x] => [x]
  | x :: y :: rest =>
    if x = y then dedupConsec (y :: rest) else x :: dedupConsec (y :: rest)

theorem dedupConsec_snoc (l : List (Option Nat)) (x : Option Nat) :
    dedupConsec (l ++ [x]) =
      match l.getLast? with
      | none => [x]
      | some y => if y = x then dedupConsec l else dedupConsec l ++ [x] := by
  induction l with
  | nil => rfl
  | cons a l ih =>
    cases l with
    | nil =>
      simp only [List.cons_append, List.nil_append, dedupConsec,
        List.getLast?_singleton]
      by_cases h : a = x <;> simp [h]
    | cons b l =>
      have hlast : (a :: b :: l).getLast? = (b :: l).getLast? := by
        simp [List.getLast?_cons_cons]
      rw [hlast]
      have hcons : (a :: b :: l) ++ [x] = a :: ((b :: l) ++ [x]) := by simp
      rw [hcons]
      show dedupConsec (a :: ((b :: l) ++ [x])) = _
      have hne : (b :: l) ++ [x] = b :: (l ++ [x]) := by simp
      by_cases hab : a = b
      · rw [show dedupConsec (a :: ((b :: l) ++ [x])) =
            dedupConsec ((b :: l) ++ [x]) by
            rw [hne]; simp [dedupConsec, hab]]
        rw [ih]
        rcases hbl : (b :: l).getLast? with _ | y
        · simp at hbl
        · by_cases hyx : y = x
          · simp [hyx, dedupConsec, hab]
          · simp only [hyx, if_neg hyx]
            rw [show dedupConsec (a :: b :: l) = dedupConsec (b :: l) by
              simp [dedupConsec, hab]]
      · rw [show dedupConsec (a :: ((b :: l) ++ [x])) =
            a :: dedupConsec ((b :: l) ++ [x]) by
            rw [hne]; simp [dedupConsec, hab]]
        rw [ih]
        rcases hbl : (b :: l).getLast? with _ | y
        · simp at hbl
        · by_cases hyx : y = x
          · rw [show dedupConsec (a :: b :: l) = a :: dedupConsec (b :: l) by
              simp [dedupConsec, hab]]
            simp [hyx]
          · simp only [if_neg hyx]
            rw [show dedupConsec (a :: b :: l) = a :: dedupConsec (b :: l) by
              simp [dedupConsec, hab]]
            simp

theorem modifyLast_length {χ : Type*} (f : χ → χ) (l : List χ) :
    (modifyLast f l).length = l.length := by
  induction l with
  | nil => rfl
  | cons c rest ih =>
    cases rest with
    | nil => rfl
    | cons c' rest' =>
      simp only [modifyLast, List.length_cons]
      rw [ih]
      simp

theorem map_modifyLast {χ ψ : Type*} (f : χ → χ) (g : χ → ψ)
    (h : ∀ c, g (f c) = g c) (l : List χ) :
    (modifyLast f l).map g = l.map g := by
  induction l with
  | nil => rfl
  | cons c rest ih =>
    cases rest with
    | nil => simp [modifyLast, h]
    | cons c' rest' =>
      simp only [modifyLast, List.map_cons]
      rw [ih]
      simp

theorem append_output_pairs_snoc (sb : StreamedBatch)
    (ps : List (Option Nat × Option Nat)) (p : Option Nat × Option Nat) :
    append_output_pairs sb (ps ++ [p]) =
      append_output_pair (append_output_pairs sb ps) p.1 p.2 := by
  simp [append_output_pairs, List.foldl_append]


theorem modifyLast_isEmpty {χ : Type*} (f : χ → χ) (l : List χ) :
    (modifyLast f l).isEmpty = l.isEmpty := by
  cases l with
  | nil => rfl
  | cons c rest => cases rest <;> rfl

theorem append_output_pair_new_chunk (sb : StreamedBatch) (a : Option Nat)
    (b : Option Nat)
    (h : sb.output_indices.isEmpty = true ∨ sb.buffered_batch_idx ≠ a) :
    append_output_pair sb a b =
      { idx := sb.idx,
        output_indices := modifyLast
          (fun c =>
            { c with
              streamed_indices := c.streamed_indices ++ [sb.idx],
              buffered_indices := c.buffered_indices ++ [b] })
          (sb.output_indices
            ++ [{ buffered_batch_idx := a, streamed_indices := [],
                  buffered_indices := [] }]),
        buffered_batch_idx := a } := by
  have hc : (sb.output_indices.isEmpty
      || decide (sb.buffered_batch_idx ≠ a)) = true := by
    rcases h with h | h
    · simp [h]
    · simp [h]
  simp only [append_output_pair, hc]
  simp

theorem append_output_pair_same_chunk (sb : StreamedBatch) (a : Option Nat)
    (b : Option Nat) (h1 : sb.output_indices.isEmpty = false)
    (h2 : sb.buffered_batch_idx = a) :
    append_output_pair sb a b =
      { sb with
        output_indices := modifyLast
          (fun c =>
            { c with
              streamed_indices := c.streamed_indices ++ [sb.idx],
              buffered_indices := c.buffered_indices ++ [b] })
          sb.output_indices } := by
  have hc : (sb.output_indices.isEmpty
      || decide (sb.buffered_batch_idx ≠ a)) = false := by
    simp [h1, h2]
  simp only [append_output_pair, hc]
  simp

theorem modifyLast_map_bbi (sidx : Nat) (b : Option Nat)
    (l : List StreamedJoinedChunk) :
    (modifyLast
      (fun c =>
        { c with
          streamed_indices := c.streamed_indices ++ [sidx],
          buffered_indices := c.buffered_indices ++ [b] }) l).map
      (fun c => c.buffered_batch_idx) =
    l.map (fun c => c.buffered_batch_idx) :=
  map_modifyLast
    (fun c =>
      { c with
        streamed_indices := c.streamed_indices ++ [sidx],
        buffered_indices := c.buffered_indices ++ [b] })
    (fun c => c.buffered_batch_idx) (fun _ => rfl) l

theorem isEmpty_append_singleton {χ : Type*} (l : List χ) (c : χ) :
    (l ++ [c]).isEmpty = false := by
  cases l <;> rfl

theorem append_output_pairs_invariant (ps : List (Option Nat × Option Nat)) :
    ((append_output_pairs StreamedBatch.new ps).output_indices.map
        (fun c => c.buffered_batch_idx) = dedupConsec (ps.map Prod.fst))
    ∧ ((append_output_pairs StreamedBatch.new ps).buffered_batch_idx =
        ((ps.map Prod.fst).getLast?).getD none)
    ∧ ((append_output_pairs StreamedBatch.new ps).output_indices.isEmpty =
        ps.isEmpty) := by
  induction ps using List.reverseRecOn with
  | nil => exact ⟨rfl, rfl, rfl⟩
  | append_singleton ps p ih =>
    obtain ⟨h1, h2, h3⟩ := ih
    rw [append_output_pairs_snoc]
    by_cases hps : ps = []
    · subst hps
      simp only [append_output_pairs, List.foldl_nil]
      rw [append_output_pair_new_chunk StreamedBatch.new p.1 p.2 (Or.inl rfl)]
      dsimp only
      simp [StreamedBatch.new, modifyLast, dedupConsec]
    · have hmapne : ps.map Prod.fst ≠ [] := by simpa using hps
      obtain ⟨y, hy⟩ : ∃ y, (ps.map Prod.fst).getLast? = some y :=
        Option.isSome_iff_exists.mp (List.getLast?_isSome.mpr hmapne)
      have hemp :
          (append_output_pairs StreamedBatch.new ps).output_indices.isEmpty
            = false := by
        rw [h3]; simpa using hps
      have hbbi :
          (append_output_pairs StreamedBatch.new ps).buffered_batch_idx = y := by
        rw [h2, hy]; rfl
      have hsnoc : dedupConsec ((ps ++ [p]).map Prod.fst) =
          (if y = p.1 then dedupConsec (ps.map Prod.fst)
           else dedupConsec (ps.map Prod.fst) ++ [p.1]) := by
        rw [List.map_append, List.map_singleton, dedupConsec_snoc, hy]
      have hlastsnoc : (((ps ++ [p]).map Prod.fst).getLast?).getD none =
          p.1 := by simp
      by_cases heq : y = p.1
      · rw [append_output_pair_same_chunk _ _ p.2 hemp (by rw [hbbi, heq])]
        dsimp only
        refine ⟨?_, ?_, ?_⟩
        · rw [hsnoc, if_pos heq, ← h1, modifyLast_map_bbi]
        · rw [hlastsnoc, hbbi, heq]
        · rw [modifyLast_isEmpty, hemp, isEmpty_append_singleton]
      · rw [append_output_pair_new_chunk _ p.1 p.2
          (Or.inr (by rw [hbbi]; exact heq))]
        dsimp only
        refine ⟨?_, ?_, ?_⟩
        · rw [hsnoc, if_neg heq, ← h1, modifyLast_map_bbi]
          simp
        · rw [hlastsnoc]
        · rw [modifyLast_isEmpty, isEmpty_append_singleton,
            isEmpty_append_singleton]

/-- C9: chunks of `output_indices` are grouped by `buffered_batch_idx` (the
chunk index list is the consecutive-duplicate collapse of the appended
targets), and appending an output pair creates a new chunk if and only if
there was no previous pair or the target buffered batch index differs from
the previously appended pair's. -/
theorem append_output_pair_chunk_grouping :
    ∀ (ps : List (Option Nat × Option Nat)) (p : Option Nat × Option Nat),
      ((append_output_pairs StreamedBatch.new ps).output_indices.map
          (fun c => c.buffered_batch_idx) = dedupConsec (ps.map Prod.fst))
      ∧ ((append_output_pairs StreamedBatch.new
            (ps ++ [p])).output_indices.length =
          (append_output_pairs StreamedBatch.new ps).output_indices.length +
            (match (ps.map Prod.fst).getLast? with
             | none => 1
             | some y => if y = p.1 then 0 else 1)) := by
  intro ps p
  refine ⟨(append_output_pairs_invariant ps).1, ?_⟩
  obtain ⟨h1, h2, h3⟩ := append_output_pairs_invariant ps
  rw [append_output_pairs_snoc]
  by_cases hps : ps = []
  · subst hps
    simp only [append_output_pairs, List.foldl_nil]
    rw [append_output_pair_new_chunk StreamedBatch.new p.1 p.2 (Or.inl rfl)]
    dsimp only
    rw [modifyLast_length]
    simp [StreamedBatch.new]
  · have hmapne : ps.map Prod.fst ≠ [] := by simpa using hps
    obtain ⟨y, hy⟩ : ∃ y, (ps.map Prod.fst).getLast? = some y :=
      Option.isSome_iff_exists.mp (List.getLast?_isSome.mpr hmapne)
    have hemp :
        (append_output_pairs StreamedBatch.new ps).output_indices.isEmpty
          = false := by
      rw [h3]; simpa using hps
    have hbbi :
        (append_output_pairs StreamedBatch.new ps).buffered_batch_idx = y := by
      rw [h2, hy]; rfl
    rw [hy]
    by_cases heq : y = p.1
    · rw [append_output_pair_same_chunk _ _ p.2 hemp (by rw [hbbi, heq])]
      dsimp only
      rw [modifyLast_length]
      simp [heq]
    · rw [append_output_pair_new_chunk _ p.1 p.2
        (Or.inr (by rw [hbbi]; exact heq))]
      dsimp only
      rw [modifyLast_length]
      simp [heq]

/-- Kinds of `DataFusionError` relevant to this operator. -/
inductive DataFusionErrorKind where
  | Plan
  | NotImplemented
  | Execution
  | ResourcesExhausted
  | Internal
deriving DecidableEq, Repr

/-- A `DataFusionError`: its variant and its message. -/
structure DFError where
  kind : DataFusionErrorKind
  msg : String
deriving DecidableEq, Repr

/-- The partition-count validation at the top of
`SortMergeJoinExec::execute`: differing child partition counts fail with
`internal_err!`. -/
def execute_partition_check (left_partitions right_partitions : Nat) :
    Except DFError Unit :=
  if left_partitions ≠ right_partitions then
    Except.error
      { kind := DataFusionErrorKind.Internal,
        msg := "Invalid SortMergeJoinExec, partition count mismatch "
          ++ toString left_partitions ++ "!=" ++ toString right_partitions
          ++ ", consider using RepartitionExec" }
  else Except.ok ()

/-- C8, counterexample: with partition counts 1 and 2 the execute check
fails with an `Internal` error, not a `Plan` error. -/
theorem execute_partition_check_counterexample :
    execute_partition_check 1 2 =
      Except.error
        { kind := DataFusionErrorKind.Internal,
          msg := "Invalid SortMergeJoinExec, partition count mismatch 1!=2, consider using RepartitionExec" }
    ∧ DataFusionErrorKind.Internal ≠ DataFusionErrorKind.Plan := by
  constructor
  · rfl
  · intro h
    cases h

/-- C8 (amended): when the left and right child plans have differing output
partition counts, executing the operator fails, and the failure is
classified as an internal error (`internal_err!`), naming both counts and
suggesting `RepartitionExec`. -/
theorem execute_partition_check_mismatch_internal
    (left_partitions right_partitions : Nat)
    (h : left_partitions ≠ right_partitions) :
    execute_partition_check left_partitions right_partitions =
      Except.error
        { kind := DataFusionErrorKind.Internal,
          msg := "Invalid SortMergeJoinExec, partition count mismatch "
            ++ toString left_partitions ++ "!=" ++ toString right_partitions
            ++ ", consider using RepartitionExec" } := by
  simp [execute_partition_check, h]

theorem execute_partition_check_mismatch_internal_witness :
    execute_partition_check 3 5 =
      Except.error
        { kind := DataFusionErrorKind.Internal,
          msg := "Invalid SortMergeJoinExec, partition count mismatch "
            ++ toString 3 ++ "!=" ++ toString 5
            ++ ", consider using RepartitionExec" } :=
  execute_partition_check_mismatch_internal 3 5 (by decide)

/-- The parts of `BufferedBatch` that the memory/spill protocol touches:
the in-memory payload (abstracted to an id), the spill file (abstracted to
an id), and the size estimate. -/
structure BufferedBatch where
  batch : Option Nat
  spill_file : Option Nat
  size_estimation : Nat
deriving DecidableEq, Repr

/-- The join-stream state that `allocate_reservation` reads and writes: the
current reservation size, the `peak_mem_used` metric, and the buffered
batch queue. -/
structure JoinBufferState where
  reservation : Nat
  peak_mem_used : Nat
  batches : List BufferedBatch
deriving DecidableEq, Repr

/-- `SortMergeJoinStream::allocate_reservation`.  `grow_granted` is the
memory pool's answer to `try_grow` and `grow_err_msg` the message of its
error when refused; `spill_enabled` is
`runtime_env.disk_manager.tmp_files_enabled()`; `fresh_file` abstracts the
temp file produced by the spill manager. -/
def allocate_reservation (grow_granted : Bool) (grow_err_msg : String)
    (spill_enabled : Bool) (fresh_file : Nat)
    (buffered_batch : BufferedBatch) (st : JoinBufferState) :
    Except DFError JoinBufferState :=
  if grow_granted then
    Except.ok
      { reservation := st.reservation + buffered_batch.size_estimation,
        peak_mem_used := max st.peak_mem_used
          (st.reservation + buffered_batch.size_estimation),
        batches := st.batches ++ [buffered_batch] }
  else if spill_enabled then
    match buffered_batch.batch with
    | some _ =>
      Except.ok
        { st with
          batches := st.batches
            ++ [{ buffered_batch with
                  batch := none, spill_file := some fresh_file }] }
    | none =>
      Except.error
        { kind := DataFusionErrorKind.Internal,
          msg := "Buffered batch has empty body" }
  else
    Except.error
      { kind := DataFusionErrorKind.Execution,
        msg := grow_err_msg ++ ". Disk spilling disabled." }

/-- C5, counterexample: when the reservation growth is refused and spilling
is disabled, the returned error is an `Execution` error (from `exec_err!`)
wrapping the pool's message, not a `ResourcesExhausted` error. -/
theorem allocate_reservation_counterexample :
    allocate_reservation false "Failed to allocate additional bytes" false 0
        { batch := some 7, spill_file := none, size_estimation := 100 }
        { reservation := 0, peak_mem_used := 0, batches := [] } =
      Except.error
        { kind := DataFusionErrorKind.Execution,
          msg := "Failed to allocate additional bytes. Disk spilling disabled." }
    ∧ DataFusionErrorKind.Execution ≠ DataFusionErrorKind.ResourcesExhausted
    := by
  constructor
  · rfl
  · intro h
    cases h

/-- C5 (amended): when the reservation growth is refused and spilling is
enabled, the batch's payload is spilled to a fresh temp file, its in-memory
batch is set to `None`, its `spill_file` to `Some`, and it is still pushed
onto the buffered queue (the reservation unchanged); when the growth is
refused and spilling is disabled, the operation fails with an `Execution`
error whose message appends the "Disk spilling disabled" hint to the
reservation failure's message. -/
theorem allocate_reservation_spec (grow_err_msg : String) (fresh_file : Nat)
    (buffered_batch : BufferedBatch) (st : JoinBufferState) (payload : Nat)
    (hb : buffered_batch.batch = some payload) :
    (allocate_reservation false grow_err_msg true fresh_file buffered_batch
        st =
      Except.ok
        { st with
          batches := st.batches
            ++ [{ buffered_batch with
                  batch := none, spill_file := some fresh_file }] })
    ∧ (allocate_reservation false grow_err_msg false fresh_file
        buffered_batch st =
      Except.error
        { kind := DataFusionErrorKind.Execution,
          msg := grow_err_msg ++ ". Disk spilling disabled." }) := by
  constructor
  · simp [allocate_reservation, hb]
  · simp [allocate_reservation]

theorem allocate_reservation_spec_witness :
    (allocate_reservation false "refused" true 42
        { batch := some 7, spill_file := none, size_estimation := 100 }
        { reservation := 5, peak_mem_used := 5, batches := [] } =
      Except.ok
        { reservation := 5, peak_mem_used := 5,
          batches := [{ batch := none, spill_file := some 42,
                        size_estimation := 100 }] })
    ∧ (allocate_reservation false "refused" false 42
        { batch := some 7, spill_file := none, size_estimation := 100 }
        { reservation := 5, peak_mem_used := 5, batches := [] } =
      Except.error
        { kind := DataFusionErrorKind.Execution,
          msg := "refused" ++ ". Disk spilling disabled." }) :=
  allocate_reservation_spec "refused" 42
    { batch := some 7, spill_file := none, size_estimation := 100 }
    { reservation := 5, peak_mem_used := 5, batches := [] } 7 rfl

/-- The parts of a buffered batch that `compare_streamed_buffered` and
`BufferedData::has_buffered_rows` read: the key arrays and the key range
(`range.start`, `range.end`, half open). -/
structure BufferedBatchKeys (α : Type*) where
  join_arrays : List (List (Option α))
  range_start : Nat
  range_stop : Nat

/-- `BufferedData::has_buffered_rows`: some batch has a non-empty range. -/
def has_buffered_rows {α : Type*} (batches : List (BufferedBatchKeys α)) :
    Bool :=
  batches.any (fun b => decide (b.range_start < b.range_stop))

/-- `SortMergeJoinStream::compare_streamed_buffered`: `Greater` when the
streamed side is exhausted, else `Less` when no buffered rows exist, else
the key comparator on the streamed row and the head batch's range start. -/
def compare_streamed_buffered {α : Type*} [LinearOrder α]
    (streamed_exhausted : Bool)
    (streamed_join_arrays : List (List (Option α))) (streamed_idx : Nat)
    (batches : List (BufferedBatchKeys α)) (sort_options : List SortOptions)
    (null_equality : NullEquality) : Ordering :=
  if streamed_exhausted then .gt
  else if !(has_buffered_rows batches) then .lt
  else
    match batches with
    | [] => .lt
    | head_batch :: _ =>
      compare_join_arrays streamed_join_arrays streamed_idx
        head_batch.join_arrays head_batch.range_start sort_options
        null_equality

/-- C10: `compare_streamed_buffered` returns `Greater` whenever the
streamed side is exhausted (regardless of buffered contents); returns
`Less` whenever the streamed side is not exhausted and no buffered batch
has a non-empty key range; and only otherwise invokes the key comparator
on the streamed row and the head buffered batch's range start. -/
theorem compare_streamed_buffered_spec {α : Type*} [LinearOrder α] :
    ∀ (streamed_join_arrays : List (List (Option α))) (streamed_idx : Nat)
      (batches : List (BufferedBatchKeys α))
      (sort_options : List SortOptions) (null_equality : NullEquality),
      (compare_streamed_buffered true streamed_join_arrays streamed_idx
        batches sort_options null_equality = Ordering.gt)
      ∧ (has_buffered_rows batches = false →
          compare_streamed_buffered false streamed_join_arrays streamed_idx
            batches sort_options null_equality = Ordering.lt)
      ∧ (has_buffered_rows batches = false ↔
          ∀ b ∈ batches, b.range_stop ≤ b.range_start)
      ∧ (∀ head_batch rest, batches = head_batch :: rest →
          has_buffered_rows batches = true →
          compare_streamed_buffered false streamed_join_arrays streamed_idx
            batches sort_options null_equality =
            compare_join_arrays streamed_join_arrays streamed_idx
              head_batch.join_arrays head_batch.range_start sort_options
              null_equality) := by
  intro sA sIdx batches sos ne
  refine ⟨rfl, ?_, ?_, ?_⟩
  · intro h
    simp [compare_streamed_buffered, h]
  · simp [has_buffered_rows, List.any_eq_false]
  · intro head_batch rest hb hrows
    subst hb
    simp [compare_streamed_buffered, hrows]

theorem compare_streamed_buffered_spec_witness :
    (compare_streamed_buffered true [[(some (3 : Int))]] 0
      [{ join_arrays := [[some (5 : Int)]], range_start := 0,
         range_stop := 1 }] [{ descending := false, nulls_first := true }]
      NullEquality.NullEqualsNothing = Ordering.gt)
    ∧ (compare_streamed_buffered false [[(some (3 : Int))]] 0
        ([] : List (BufferedBatchKeys Int))
        [{ descending := false, nulls_first := true }]
        NullEquality.NullEqualsNothing = Ordering.lt)
    ∧ (compare_streamed_buffered false [[(some (3 : Int))]] 0
        [{ join_arrays := [[some (5 : Int)]], range_start := 0,
           range_stop := 1 }] [{ descending := false, nulls_first := true }]
        NullEquality.NullEqualsNothing =
        compare_join_arrays [[(some (3 : Int))]] 0 [[some (5 : Int)]] 0
          [{ descending := false, nulls_first := true }]
          NullEquality.NullEqualsNothing) := by
  refine ⟨?_, ?_, ?_⟩
  · exact (compare_streamed_buffered_spec [[(some (3 : Int))]] 0
      [{ join_arrays := [[some (5 : Int)]], range_start := 0,
         range_stop := 1 }] [{ descending := false, nulls_first := true }]
      NullEquality.NullEqualsNothing).1
  · exact (compare_streamed_buffered_spec [[(some (3 : Int))]] 0
      ([] : List (BufferedBatchKeys Int))
      [{ descending := false, nulls_first := true }]
      NullEquality.NullEqualsNothing).2.1 rfl
  · exact (compare_streamed_buffered_spec [[(some (3 : Int))]] 0
      [{ join_arrays := [[some (5 : Int)]], range_start := 0,
         range_stop := 1 }] [{ descending := false, nulls_first := true }]
      NullEquality.NullEqualsNothing).2.2.2
      { join_arrays := [[some (5 : Int)]], range_start := 0,
        range_stop := 1 } [] rfl (by decide)

/-- Buffered group accumulation (the `PollingRest` loop of
`poll_buffered_batches`): starting from group head key `k`, rows are added
to the group while `is_join_arrays_equal` holds against the head; the first
non-matching row halts accumulation and seeds the next group.  Returns
(group tail, remaining rows). -/
def groupSpan {α : Type*} [LinearOrder α] (k : α) : List α → List α × List α
  | [] => ([], [])
  | b :: rest =>
    if is_join_arrays_equal [[some k]] 0 [[some b]] 0 then
      (b :: (groupSpan k rest).1, (groupSpan k rest).2)
    else ([], b :: rest)

/-- One-key-per-row Inner-join run of the `SortMergeJoinStream` state
machine, fuelled (the fuel is an upper bound on loop iterations; the
public entry point supplies enough).  Each step mirrors `poll_next` for
`JoinType::Inner` without a residual filter: `Less` advances the streamed
cursor without output, `Equal` emits the streamed row joined with every
row of the current buffered group (`join_partial`) and then advances the
streamed cursor, `Greater` dequeues the buffered group; an exhausted
streamed side compares `Greater` and an empty buffered side compares
`Less`, so both tails produce no further `Inner` output. -/
def smjInnerGo {α : Type*} [LinearOrder α] (so : SortOptions)
    (ne : NullEquality) : Nat → List α → List α → List (α × α)
  | 0, _, _ => []
  | _ + 1, [], _ => []
  | _ + 1, _ :: _, [] => []
  | fuel + 1, s :: ss, b :: bs =>
    match compare_join_arrays [[some s]] 0 [[some b]] 0 [so] ne with
    | .lt => smjInnerGo so ne fuel ss (b :: bs)
    | .eq =>
      ((b :: (groupSpan b bs).1).map (fun x => (s, x)))
        ++ smjInnerGo so ne fuel ss (b :: bs)
    | .gt => smjInnerGo so ne fuel (s :: ss) (groupSpan b bs).2

/-- The Inner sort-merge join of two single-key row streams: run the state
machine with enough fuel to consume both inputs. -/
def sort_merge_join_inner {α : Type*} [LinearOrder α] (so : SortOptions)
    (ne : NullEquality) (ss bs : List α) : List (α × α) :=
  smjInnerGo so ne (ss.length + bs.length + 1) ss bs

theorem compare_single {α : Type*} [LinearOrder α] (s b : α)
    (so : SortOptions) (hso : so.descending = false) (ne : NullEquality) :
    compare_join_arrays [[some s]] 0 [[some b]] 0 [so] ne = cmp3 s b := by
  have hc : compare_cell (cellAt [some s] 0) (cellAt [some b] 0) so ne =
      cmp3 s b := by
    show compare_cell (some s) (some b) so ne = cmp3 s b
    simp [compare_cell, hso]
  show compareKeysGo 0 0 ne [(([some s], [some b]), so)] = cmp3 s b
  simp only [compareKeysGo, hc]
  split
  · rename_i h
    exact h.symm
  · rfl

theorem is_equal_single {α : Type*} [LinearOrder α] (k b : α) :
    is_join_arrays_equal [[some k]] 0 [[some b]] 0 = decide (k = b) := by
  by_cases h : k = b <;>
    simp [is_join_arrays_equal, isEqualGo, cellAt, h]

theorem groupSpan_snd_length {α : Type*} [LinearOrder α] (k : α)
    (l : List α) : (groupSpan k l).2.length ≤ l.length := by
  induction l with
  | nil => simp [groupSpan]
  | cons b rest ih =>
    simp only [groupSpan]
    split
    · simpa using Nat.le_succ_of_le ih
    · simp

theorem groupSpan_of_forall_ne {α : Type*} [LinearOrder α] (k : α)
    (l : List α) (h : ∀ x ∈ l, k ≠ x) : groupSpan k l = ([], l) := by
  cases l with
  | nil => rfl
  | cons b rest =>
    have hne : is_join_arrays_equal [[some k]] 0 [[some b]] 0 = false := by
      rw [is_equal_single]
      simpa using h b (by simp)
    simp [groupSpan, hne]

theorem smjInnerGo_count {α : Type*} [LinearOrder α] (so : SortOptions)
    (hso : so.descending = false) (ne : NullEquality) :
    ∀ (fuel : Nat) (ss bs : List α), ss.length + bs.length < fuel →
      ss.Pairwise (· < ·) → bs.Pairwise (· < ·) →
      ((smjInnerGo so ne fuel ss bs).length =
        (ss.filter (fun s => decide (s ∈ bs))).length
      ∧ ∀ p ∈ smjInnerGo so ne fuel ss bs, p.1 = p.2) := by
  intro fuel
  induction fuel with
  | zero =>
    intro ss bs h
    exact absurd h (by omega)
  | succ fuel ih =>
    intro ss bs hlt hss hbs
    cases ss with
    | nil => simp [smjInnerGo]
    | cons s ss =>
      cases bs with
      | nil =>
        constructor
        · simp [smjInnerGo]
        · simp [smjInnerGo]
      | cons b bs =>
        obtain ⟨hsall, hss'⟩ := List.pairwise_cons.mp hss
        obtain ⟨hball, hbs'⟩ := List.pairwise_cons.mp hbs
        have hgs : groupSpan b bs = ([], bs) :=
          groupSpan_of_forall_ne b bs (fun x hx => ne_of_lt (hball x hx))
        have hstep_lt : cmp3 s b = .lt →
            smjInnerGo so ne (fuel + 1) (s :: ss) (b :: bs) =
              smjInnerGo so ne fuel ss (b :: bs) := fun h => by
          simp only [smjInnerGo, compare_single s b so hso ne, h]
        have hstep_eq : cmp3 s b = .eq →
            smjInnerGo so ne (fuel + 1) (s :: ss) (b :: bs) =
              (s, b) :: smjInnerGo so ne fuel ss (b :: bs) := fun h => by
          simp only [smjInnerGo, compare_single s b so hso ne, h, hgs,
            List.map_cons, List.map_nil, List.cons_append, List.nil_append]
        have hstep_gt : cmp3 s b = .gt →
            smjInnerGo so ne (fuel + 1) (s :: ss) (b :: bs) =
              smjInnerGo so ne fuel (s :: ss) bs := fun h => by
          simp only [smjInnerGo, compare_single s b so hso ne, h, hgs]
        rcases hcmp : cmp3 s b with _ | _ | _
        · rw [hstep_lt hcmp]
          have hs_lt : s < b := (cmp3_lt_iff s b).mp hcmp
          have hmem : decide (s ∈ b :: bs) = false := by
            simp only [decide_eq_false_iff_not]
            intro hmem
            rcases List.mem_cons.mp hmem with h | h
            · rw [h] at hs_lt
              exact absurd hs_lt (lt_irrefl b)
            · exact absurd hs_lt (asymm (hball s h))
          obtain ⟨ihlen, ihpred⟩ := ih ss (b :: bs)
            (by simp only [List.length_cons] at hlt ⊢; omega) hss' hbs
          refine ⟨?_, ihpred⟩
          rw [ihlen, List.filter_cons, hmem]
          simp
        · rw [hstep_eq hcmp]
          have hs_eq : s = b := (cmp3_eq_iff s b).mp hcmp
          have hmem : decide (s ∈ b :: bs) = true := by
            simp [hs_eq]
          obtain ⟨ihlen, ihpred⟩ := ih ss (b :: bs)
            (by simp only [List.length_cons] at hlt ⊢; omega) hss' hbs
          constructor
          · rw [List.length_cons, ihlen, List.filter_cons, hmem]
            simp
          · intro p hp
            rcases List.mem_cons.mp hp with h | h
            · rw [h]
              exact hs_eq
            · exact ihpred p h
        · rw [hstep_gt hcmp]
          have hb_lt : b < s := (cmp3_gt_iff s b).mp hcmp
          have hfc : (s :: ss).filter (fun x => decide (x ∈ b :: bs)) =
              (s :: ss).filter (fun x => decide (x ∈ bs)) := by
            apply List.filter_congr
            intro x hx
            have hbx : b < x := by
              rcases List.mem_cons.mp hx with h | h
              · rw [h]
                exact hb_lt
              · exact lt_trans hb_lt (hsall x h)
            have hxb : x ≠ b := ne_of_gt hbx
            simp [List.mem_cons, hxb]
          obtain ⟨ihlen, ihpred⟩ := ih (s :: ss) bs
            (by simp only [List.length_cons] at hlt ⊢; omega) hss hbs'
          refine ⟨?_, ihpred⟩
          rw [ihlen, hfc]

/-- C1: for an Inner join over sorted inputs with unique keys on both
sides (strictly sorted under the comparator's order), the output row count
equals the number of key values present in both inputs, and every output
row satisfies the equi-join predicate: its streamed-side key compares
`Equal` to its buffered-side key under `compare_join_arrays`. -/
theorem sort_merge_join_inner_unique_keys {α : Type*} [LinearOrder α]
    (so : SortOptions) (hso : so.descending = false) (ne : NullEquality)
    (ss bs : List α)
    (hss : ss.Pairwise (· < ·)) (hbs : bs.Pairwise (· < ·)) :
    (sort_merge_join_inner so ne ss bs).length =
      (ss.filter (fun s => decide (s ∈ bs))).length
    ∧ ∀ p ∈ sort_merge_join_inner so ne ss bs,
        compare_join_arrays [[some p.1]] 0 [[some p.2]] 0 [so] ne =
          Ordering.eq := by
  have h := smjInnerGo_count so hso ne (ss.length + bs.length + 1) ss bs
    (by omega) hss hbs
  refine ⟨h.1, fun p hp => ?_⟩
  have hpe := h.2 p hp
  rw [compare_single p.1 p.2 so hso ne, hpe]
  exact (cmp3_eq_iff p.2 p.2).mpr rfl

theorem sort_merge_join_inner_unique_keys_witness :
    (sort_merge_join_inner { descending := false, nulls_first := true }
        NullEquality.NullEqualsNothing ([1, 2, 3] : List Int)
        [2, 3, 4]).length =
      (([1, 2, 3] : List Int).filter
        (fun s => decide (s ∈ ([2, 3, 4] : List Int)))).length
    ∧ compare_join_arrays [[some (2 : Int)]] 0 [[some (2 : Int)]] 0
        [{ descending := false, nulls_first := true }]
        NullEquality.NullEqualsNothing = Ordering.eq := by
  have h := sort_merge_join_inner_unique_keys
    { descending := false, nulls_first := true }
    rfl NullEquality.NullEqualsNothing ([1, 2, 3] : List Int) [2, 3, 4]
    (by decide) (by decide)
  exact ⟨h.1, h.2 (2, 2) (by decide)⟩
